import Mathlib

/-!
Shallow embedding of the image-conversion core of this repository:
the single-item pipeline `decodeImage → preprocessImage → processImage →
encodeImage` composed by `convertFile`, and the batch scheduler
`convertFiles` (src/client/lazy-app/core/convert.ts), together with the
legacy batch component's `decodeImage` (which carries the SVG
normalization branch).

External collaborators (worker bridge capabilities, content sniffing,
builtin decode, the encoder registry) are modelled as records of pure
functions returning `Except JsErr`, where `JsErr` distinguishes an
`AbortError` (a fired cancellation token) from a generic JS `Error`
with a message.  The cancellation token is modelled by its `aborted`
flag, constant over one call.  Each stage additionally returns the list
of external capability invocations it performed, so that "invokes no
capability" and "resize before quantize" style properties are statable.

The batch scheduler is modelled as a step relation on an explicit
state (`BatchState`): JavaScript's single-threaded event loop makes
`queue.shift()` and the bookkeeping around one `await convertFile`
atomic, so one scheduler step pops one index, finalizes that item and
reports progress; a schedule (list of worker ids) resolves which worker
steps next, covering every possible interleaving.
-/

namespace Squoosh

/-- A JavaScript error value as the pipeline distinguishes them:
either an `AbortError` (checked via `err.name === 'AbortError'`) or a
generic `Error` with a message. -/
inductive JsErr
| abortError
| error (msg : String)
deriving DecidableEq

/-- A binary blob: opaque content plus a declared MIME type. -/
structure Blob where
  content : String
  mime : String
deriving DecidableEq

/-- A JS `File`: a blob with a name. -/
structure File where
  blob : Blob
  name : String
deriving DecidableEq

/-- A decoded raster image; the pixel payload is opaque to the core. -/
structure ImageData where
  width : Nat
  height : Nat
  data : String
deriving DecidableEq

/-- Rotation preprocessor options (`preprocessorState.rotate`). -/
structure RotateOptions where
  rotate : Int
deriving DecidableEq

/-- Resize processor options; fields beyond the `enabled` flag are
opaque codec-registry business (spec section 9) and irrelevant here. -/
structure ResizeOptions where
  enabled : Bool
deriving DecidableEq

/-- Quantize processor options; fields beyond `enabled` are opaque. -/
structure QuantizeOptions where
  enabled : Bool
deriving DecidableEq

/-- `PreprocessorState` from feature-meta: rotation config. -/
structure PreprocessorState where
  rotate : RotateOptions
deriving DecidableEq

/-- `ProcessorState` from feature-meta: resize and quantize configs. -/
structure ProcessorState where
  resize : ResizeOptions
  quantize : QuantizeOptions
deriving DecidableEq

/-- Codec-specific encoder options, opaque to the core. -/
structure EncoderOptions where
  quality : Int
deriving DecidableEq

/-- The enumerated output codecs offered by the app. -/
inductive EncoderType
| mozJPEG
| webP
| avif
deriving DecidableEq

/-- `EncoderState`: chosen codec plus its option record. -/
structure EncoderState where
  type : EncoderType
  options : EncoderOptions
deriving DecidableEq

/-- The per-worker capability provider (`WorkerBridge`): one decode
capability per non-native format, plus rotate and quantize.  Each is a
pure function that may fail with a `JsErr` (an `abortError` models the
capability observing the shared cancellation token). -/
structure WorkerBridge where
  avifDecode : Blob → Except JsErr ImageData
  webpDecode : Blob → Except JsErr ImageData
  jxlDecode : Blob → Except JsErr ImageData
  wp2Decode : Blob → Except JsErr ImageData
  qoiDecode : Blob → Except JsErr ImageData
  rotate : ImageData → RotateOptions → Except JsErr ImageData
  quantize : ImageData → QuantizeOptions → Except JsErr ImageData

/-- Codec descriptor metadata (`encoder.meta`). -/
structure EncoderMeta where
  mimeType : String
  extension : String
  defaultOptions : EncoderOptions
deriving DecidableEq

/-- A codec registry entry: metadata plus the encode capability
(`encoder.encode(signal, workerBridge, image, options)`). -/
structure Encoder where
  meta : EncoderMeta
  encode : WorkerBridge → ImageData → EncoderOptions → Except JsErr String

/-- An SVG root element as the legacy normalization reads it:
optional `width`/`height`/`viewBox` attributes. -/
structure SvgDoc where
  width : Option String
  height : Option String
  viewBox : Option String
deriving DecidableEq

/-- The external environment consumed by the core: utilities from
`../util`, DOM facilities used by the legacy SVG branch, the resize
feature client, the encoder registry, and the `WorkerBridge`
constructor.  `sniffMimeType` and `canDecodeImageType` are modelled as
total (their only failure mode in the code is the cancellation race in
`abortable`, which the `aborted` flag already covers). -/
structure Env where
  sniffMimeType : Blob → String
  canDecodeImageType : String → Bool
  builtinDecode : Blob → Except JsErr ImageData
  blobToText : Blob → String
  parseSvg : String → SvgDoc
  serializeSvg : SvgDoc → String
  rasterize : Blob → Except JsErr ImageData
  resizeClient : ImageData → ImageData → ResizeOptions → WorkerBridge → Except JsErr ImageData
  encoderMap : EncoderType → Encoder
  newWorkerBridge : WorkerBridge

/-- One external capability invocation, recorded for trace-based
properties (which capability was called, with which arguments). -/
inductive Call
| avifDecode (b : Blob)
| webpDecode (b : Blob)
| jxlDecode (b : Blob)
| wp2Decode (b : Blob)
| qoiDecode (b : Blob)
| builtinDecode (b : Blob)
| rotate (d : ImageData) (o : RotateOptions)
| resize (preprocessed decoded : ImageData) (o : ResizeOptions)
| quantize (d : ImageData) (o : QuantizeOptions)
| encode (t : EncoderType) (d : ImageData) (o : EncoderOptions)
deriving DecidableEq

/-- The catch block of `decodeImage` (convert.ts lines 66-69): an
`AbortError` is rethrown unmodified, any other failure is replaced by
`Error("Couldn't decode image")`. -/
def wrapDecode (r : Except JsErr ImageData) : Except JsErr ImageData :=
  match r with
  | Except.ok a => Except.ok a
  | Except.error JsErr.abortError => Except.error JsErr.abortError
  | Except.error (JsErr.error _) => Except.error (JsErr.error "Couldn't decode image")

/-- The decode dispatch inside the try block of `decodeImage`
(convert.ts lines 47-65): bridge capability per exotic MIME type when
the browser cannot decode it natively, builtin decode otherwise. -/
def decodeDispatch (env : Env) (w : WorkerBridge) (canDecode : Bool) (mimeType : String)
    (blob : Blob) : Except JsErr ImageData × List Call :=
  if canDecode then (env.builtinDecode blob, [Call.builtinDecode blob])
  else if mimeType = "image/avif" then (w.avifDecode blob, [Call.avifDecode blob])
  else if mimeType = "image/webp" then (w.webpDecode blob, [Call.webpDecode blob])
  else if mimeType = "image/jxl" then (w.jxlDecode blob, [Call.jxlDecode blob])
  else if mimeType = "image/webp2" then (w.wp2Decode blob, [Call.wp2Decode blob])
  else if mimeType = "image/qoi" then (w.qoiDecode blob, [Call.qoiDecode blob])
  else (env.builtinDecode blob, [Call.builtinDecode blob])

/-- `decodeImage` from convert.ts (lines 37-70): assert the signal,
sniff the MIME type, probe native decodability, dispatch, and wrap
non-abort failures of the dispatch as `Error("Couldn't decode image")`. -/
def decodeImage (aborted : Bool) (env : Env) (blob : Blob) (w : WorkerBridge) :
    Except JsErr ImageData × List Call :=
  if aborted then (Except.error JsErr.abortError, [])
  else
    let mimeType := env.sniffMimeType blob
    let canDecode := env.canDecodeImageType mimeType
    let d := decodeDispatch env w canDecode mimeType blob
    (wrapDecode d.1, d.2)

/-- `preprocessImage` from convert.ts (lines 72-88): rotate via the
bridge when the angle is nonzero, otherwise return the input. -/
def preprocessImage (aborted : Bool) (data : ImageData)
    (preprocessorState : PreprocessorState) (w : WorkerBridge) :
    Except JsErr ImageData × List Call :=
  if aborted then (Except.error JsErr.abortError, [])
  else if preprocessorState.rotate.rotate ≠ 0 then
    (w.rotate data preprocessorState.rotate, [Call.rotate data preprocessorState.rotate])
  else (Except.ok data, [])

/-- The `{ preprocessed, decoded }` source record passed to
`processImage`. -/
structure ProcessSource where
  preprocessed : ImageData
  decoded : ImageData
deriving DecidableEq

/-- `processImage` from convert.ts (lines 90-105): apply the resize
feature client when enabled, then the quantize bridge capability when
enabled, each replacing the working buffer. -/
def processImage (aborted : Bool) (env : Env) (source : ProcessSource)
    (processorState : ProcessorState) (w : WorkerBridge) :
    Except JsErr ImageData × List Call :=
  if aborted then (Except.error JsErr.abortError, [])
  else
    let step1 : Except JsErr ImageData × List Call :=
      if processorState.resize.enabled then
        (env.resizeClient source.preprocessed source.decoded processorState.resize w,
         [Call.resize source.preprocessed source.decoded processorState.resize])
      else (Except.ok source.preprocessed, [])
    match step1 with
    | (Except.error e, t) => (Except.error e, t)
    | (Except.ok result, t) =>
      if processorState.quantize.enabled then
        (w.quantize result processorState.quantize,
         t ++ [Call.quantize result processorState.quantize])
      else (Except.ok result, t)

/-- The effect of `sourceFilename.replace(/\.[^.]*$/, '.' + ext)` on a
character list: the regex matches from the last dot to the end of the
string (the leftmost position where a dot is followed only by non-dots
up to the end), and the match is replaced by a dot and the new
extension; with no dot present there is no match and the name is kept. -/
def replaceLastExtL (cs ext : List Char) : List Char :=
  match cs with
  | [] => []
  | c :: rest =>
    if c = '.' ∧ '.' ∉ rest then '.' :: ext
    else c :: replaceLastExtL rest ext

/-- String-level wrapper for `replaceLastExtL`. -/
def replaceLastExt (s ext : String) : String :=
  String.mk (replaceLastExtL s.data ext.data)

/-- `encodeImage` from convert.ts (lines 107-125): resolve the codec
descriptor, run its encode capability (failures propagate: there is no
try/catch here), derive the output filename by the regex replacement,
and build the output `File` carrying the codec's canonical MIME type. -/
def encodeImage (aborted : Bool) (env : Env) (image : ImageData) (encodeData : EncoderState)
    (sourceFilename : String) (w : WorkerBridge) : Except JsErr File × List Call :=
  if aborted then (Except.error JsErr.abortError, [])
  else
    let encoder := env.encoderMap encodeData.type
    match encoder.encode w image encodeData.options with
    | Except.error e => (Except.error e, [Call.encode encodeData.type image encodeData.options])
    | Except.ok compressedData =>
      (Except.ok
        { blob := { content := compressedData, mime := encoder.meta.mimeType }
          name := replaceLastExt sourceFilename encoder.meta.extension },
       [Call.encode encodeData.type image encodeData.options])

/-- Modelled from the spec: `defaultPreprocessorState` lives in
feature-meta, which is not under src/; the spec fixes its rotation
angle default to 0 (identity). -/
def defaultPreprocessorState : PreprocessorState :=
  { rotate := { rotate := 0 } }

/-- Modelled from the spec: `defaultProcessorState` lives in
feature-meta, which is not under src/; the spec treats resize and
quantize as independently toggleable steps that default to disabled
(scenario 4: default single-file conversion performs zero
preprocess/process capability calls). -/
def defaultProcessorState : ProcessorState :=
  { resize := { enabled := false }, quantize := { enabled := false } }

/-- Whitespace test matching the `/\s+/` character class on the
characters relevant here. -/
def isWsChar (c : Char) : Bool :=
  c = ' ' || c = '\t' || c = '\n' || c = '\r'

/-- JS `String.prototype.split(/\s+/)`: pieces between maximal
whitespace runs, keeping an empty leading piece when the string starts
with whitespace and an empty trailing piece when it ends with one. -/
def splitWsL (l : List Char) : List (List Char) :=
  match l with
  | [] => [[]]
  | c :: cs =>
    let rest := splitWsL cs
    if isWsChar c then
      match cs with
      | c2 :: _ => if isWsChar c2 then rest else [] :: rest
      | [] => [] :: rest
    else
      match rest with
      | t :: ts => (c :: t) :: ts
      | [] => [[c]]

/-- `viewBox.split(/\s+/)[i]`; a missing part is JS `undefined`, which
`setAttribute` coerces to the string `"undefined"`. -/
def svgPart (viewBox : String) (i : Nat) : String :=
  match (splitWsL viewBox.data).get? i with
  | some cs => String.mk cs
  | none => "undefined"

/-- The SVG width/height injection of the legacy `decodeImage`
(part_001 lines 44-51): when the root element lacks a `width` or a
`height` attribute and has a `viewBox`, set `width`/`height` to the
third and fourth whitespace-separated parts of the `viewBox`. -/
def normalizeSvg (doc : SvgDoc) : SvgDoc :=
  if doc.width.isNone || doc.height.isNone then
    match doc.viewBox with
    | some vb => { doc with width := some (svgPart vb 2), height := some (svgPart vb 3) }
    | none => doc
  else doc

namespace Legacy

/-- `decodeImage` of the legacy batch component (part_001 lines
26-64): same dispatch as the core's, but with an extra
`image/svg+xml` branch that parses the SVG, injects width/height from
the viewBox when absent, serializes the normalized document into a
fresh blob and rasterizes that blob (`createImageBitmap` followed by
`drawableToImageData`).  The same catch wraps non-abort failures. -/
def decodeImage (aborted : Bool) (env : Env) (blob : Blob) (w : WorkerBridge) :
    Except JsErr ImageData :=
  if aborted then Except.error JsErr.abortError
  else
    let mimeType := env.sniffMimeType blob
    let canDecode := env.canDecodeImageType mimeType
    wrapDecode
      (if canDecode then env.builtinDecode blob
       else if mimeType = "image/avif" then w.avifDecode blob
       else if mimeType = "image/webp" then w.webpDecode blob
       else if mimeType = "image/jxl" then w.jxlDecode blob
       else if mimeType = "image/webp2" then w.wp2Decode blob
       else if mimeType = "image/qoi" then w.qoiDecode blob
       else if mimeType = "image/svg+xml" then
         let text := env.blobToText blob
         let doc := env.parseSvg text
         let svg := normalizeSvg doc
         let newSource := env.serializeSvg svg
         let imgBlob : Blob := { content := newSource, mime := "image/svg+xml" }
         env.rasterize imgBlob
       else env.builtinDecode blob)

end Legacy

/-- `ConvertOptions` from convert.ts (lines 24-29). -/
structure ConvertOptions where
  encoder : EncoderType
  encoderOptions : Option EncoderOptions
  preprocessorState : Option PreprocessorState
  processorState : Option ProcessorState

/-- `ConvertResult` from convert.ts (lines 31-35). -/
structure ConvertResult where
  input : File
  output : File
  processed : Option ImageData
deriving DecidableEq

/-- `convertFile` from convert.ts (lines 127-150): build the encoder
state (explicit options or the codec's declared defaults), fill in
default pre/processor states, and run the four stages in order; any
stage error propagates unchanged (there is no catch).  The second
component collects the capability invocations of all stages run. -/
def convertFile (env : Env) (file : File) (opts : ConvertOptions) (aborted : Bool) :
    Except JsErr ConvertResult × List Call :=
  let worker := env.newWorkerBridge
  let encoderState : EncoderState :=
    { type := opts.encoder
      options := opts.encoderOptions.getD (env.encoderMap opts.encoder).meta.defaultOptions }
  let preState := opts.preprocessorState.getD defaultPreprocessorState
  let procState := opts.processorState.getD defaultProcessorState
  match decodeImage aborted env file.blob worker with
  | (Except.error e, t1) => (Except.error e, t1)
  | (Except.ok decoded, t1) =>
    match preprocessImage aborted decoded preState worker with
    | (Except.error e, t2) => (Except.error e, t1 ++ t2)
    | (Except.ok preprocessed, t2) =>
      match processImage aborted env { preprocessed := preprocessed, decoded := decoded }
          procState worker with
      | (Except.error e, t3) => (Except.error e, t1 ++ t2 ++ t3)
      | (Except.ok processed, t3) =>
        match encodeImage aborted env processed encoderState file.name worker with
        | (Except.error e, t4) => (Except.error e, t1 ++ t2 ++ t3 ++ t4)
        | (Except.ok output, t4) =>
          (Except.ok { input := file, output := output, processed := some processed },
           t1 ++ t2 ++ t3 ++ t4)

/-- `BatchOptions` from convert.ts (lines 152-155): `ConvertOptions`
plus an optional concurrency (default 2).  The `onProgress` callback
is modelled by the scheduler's progress log, which records the
`(done, total)` argument pairs it would be invoked with. -/
structure BatchOptions extends ConvertOptions where
  concurrency : Option Int

/-- Status of one scheduler worker: still looping, returned after
seeing an empty queue, or terminated by an uncaught error escaping its
`try`/`finally` (which has no catch). -/
inductive WStatus
| running
| stopped
| crashed (e : JsErr)
deriving DecidableEq

/-- Whether a worker terminated with an uncaught error. -/
def WStatus.isCrashed : WStatus → Bool
  | WStatus.crashed _ => true
  | _ => false

/-- Whether a worker is still looping. -/
def WStatus.isRunning : WStatus → Bool
  | WStatus.running => true
  | _ => false

/-- Whether a worker returned normally. -/
def WStatus.isStopped : WStatus → Bool
  | WStatus.stopped => true
  | _ => false

/-- The mutable state shared by the workers of one `convertFiles` run:
the index queue, the sparse results array (a slot is `none` until a
success is stored at it), the `done` counter, the log of progress
reports, the per-worker statuses, and the first rejection that will
surface from `Promise.all`. -/
structure BatchState where
  queue : List Nat
  results : List (Option ConvertResult)
  done : Nat
  progressLog : List (Nat × Nat)
  workers : List WStatus
  firstRejection : Option JsErr
deriving DecidableEq

/-- `Math.max(1, Math.min(opts.concurrency ?? 2, 8))` (convert.ts
line 164). -/
def concClamped (requested : Option Int) : Int :=
  max 1 (min (requested.getD 2) 8)

/-- `Math.min(conc, total)`, the number of `run()` workers spawned
(convert.ts line 183). -/
def numWorkers (requested : Option Int) (total : Nat) : Nat :=
  min (concClamped requested).toNat total

/-- Placeholder for the out-of-range array read `files[idx]`; the
scheduler only ever pops indices below `files.length`. -/
def defaultFile : File :=
  { blob := { content := "", mime := "" }, name := "" }

/-- The outcome of `await convertFile(files[idx], opts, signal)` for
one queue index. -/
def itemOutcome (env : Env) (files : List File) (opts : BatchOptions) (aborted : Bool)
    (idx : Nat) : Except JsErr ConvertResult :=
  (convertFile env (files.getD idx defaultFile) opts.toConvertOptions aborted).1

/-- One atomic turn of worker `w` of the `run()` loop (convert.ts
lines 169-181).  JavaScript's event loop makes everything between two
`await convertFile` suspensions atomic: check the queue (returning
when it is empty), `queue.shift()` one index, settle `convertFile` for
it, on success store the result at that index, and in the `finally`
increment `done` and report progress.  There is no catch: an error
leaves the slot unwritten, escapes the loop after the `finally`, kills
this worker and becomes the `Promise.all` rejection if it is the first. -/
def batchStep (env : Env) (files : List File) (opts : BatchOptions) (aborted : Bool)
    (s : BatchState) (w : Nat) : BatchState :=
  match s.workers.get? w with
  | some WStatus.running =>
    match s.queue with
    | [] => { s with workers := s.workers.set w WStatus.stopped }
    | idx :: rest =>
      match itemOutcome env files opts aborted idx with
      | Except.ok res =>
        { queue := rest
          results := s.results.set idx (some res)
          done := s.done + 1
          progressLog := s.progressLog ++ [(s.done + 1, files.length)]
          workers := s.workers
          firstRejection := s.firstRejection }
      | Except.error e =>
        { queue := rest
          results := s.results
          done := s.done + 1
          progressLog := s.progressLog ++ [(s.done + 1, files.length)]
          workers := s.workers.set w (WStatus.crashed e)
          firstRejection :=
            match s.firstRejection with
            | none => some e
            | some e0 => some e0 }
  | _ => s

/-- The state of `convertFiles` before any worker turn (convert.ts
lines 162-183): queue `0..T-1`, empty results, `done = 0`, and
`Math.min(conc, total)` freshly spawned workers. -/
def initBatchState (files : List File) (opts : BatchOptions) : BatchState :=
  { queue := List.range files.length
    results := List.replicate files.length none
    done := 0
    progressLog := []
    workers := List.replicate (numWorkers opts.concurrency files.length) WStatus.running
    firstRejection := none }

/-- A complete `convertFiles` run under a given interleaving: the
schedule lists which worker takes each atomic turn (turns of finished
workers are no-ops, so every interleaving is covered). -/
def runBatch (env : Env) (files : List File) (opts : BatchOptions) (aborted : Bool)
    (sched : List Nat) : BatchState :=
  sched.foldl (batchStep env files opts aborted) (initBatchState files opts)

/-- `Promise.all` resolved: every worker returned normally, so
`convertFiles` returns its results array. -/
def batchResolved (s : BatchState) : Bool :=
  s.workers.all WStatus.isStopped

/-- All workers have finished, normally or by rejection: the run is
over (`Promise.all` has settled). -/
def batchTerminal (s : BatchState) : Bool :=
  s.workers.all (fun w => ! w.isRunning)

/-- Number of workers terminated by an uncaught error. -/
def countCrashed (ws : List WStatus) : Nat :=
  (ws.filter WStatus.isCrashed).length

/-- What a completed run must hold at slot `i`: the stored success of
converting file `i`, or nothing when that conversion fails (no catch
ever writes a failure). -/
def slotOutcome (env : Env) (files : List File) (opts : BatchOptions) (aborted : Bool)
    (idx : Nat) : Option ConvertResult :=
  match itemOutcome env files opts aborted idx with
  | Except.ok r => some r
  | Except.error _ => none

/-- Scheduler invariant, established by `initBatchState` and preserved
by every `batchStep`: queue indices are distinct and in range, a
queued slot is still empty, a popped slot holds exactly its item's
outcome, `done` counts pops, the progress log is the canonical
`(1,T), (2,T), …, (done,T)` sequence, a stopped worker implies a
drained queue, an uncrashed run has only successful pops, and the
recorded first rejection matches the presence of a crash. -/
structure BatchInv (env : Env) (files : List File) (opts : BatchOptions) (aborted : Bool)
    (s : BatchState) : Prop where
  len_results : s.results.length = files.length
  len_workers : s.workers.length = numWorkers opts.concurrency files.length
  queue_lt : ∀ i ∈ s.queue, i < files.length
  queue_nodup : s.queue.Nodup
  queued_none : ∀ i ∈ s.queue, s.results.get? i = some none
  popped_slot : ∀ i, i < files.length → i ∉ s.queue →
    s.results.get? i = some (slotOutcome env files opts aborted i)
  done_queue : s.done + s.queue.length = files.length
  progress_canon : s.progressLog = (List.range s.done).map (fun j => (j + 1, files.length))
  stopped_queue : (∃ w ∈ s.workers, w = WStatus.stopped) → s.queue = []
  nocrash_ok : (∀ w ∈ s.workers, w.isCrashed = false) →
    ∀ i, i < files.length → i ∉ s.queue → ∃ r, itemOutcome env files opts aborted i = Except.ok r
  rejection_iff : s.firstRejection = none ↔ ∀ w ∈ s.workers, w.isCrashed = false

/-- Additional invariant of runs whose cancellation token fired before
any item started: every worker is still running or was killed by the
propagating `AbortError`, no success is ever stored, `done` counts the
killed workers, and the pending rejection is the `AbortError` as soon
as one worker crashed. -/
structure AbortedInv (s : BatchState) : Prop where
  workers_ra : ∀ w ∈ s.workers, w = WStatus.running ∨ w = WStatus.crashed JsErr.abortError
  results_none : ∀ r ∈ s.results, r = none
  done_crashed : s.done = countCrashed s.workers
  rejection_eq : s.firstRejection =
    if countCrashed s.workers = 0 then none else some JsErr.abortError

/-- A bridge whose capabilities all succeed, used by the concrete
scenarios. -/
def bridgeOk : WorkerBridge where
  avifDecode := fun b => Except.ok { width := 2, height := 2, data := b.content }
  webpDecode := fun b => Except.ok { width := 2, height := 2, data := b.content }
  jxlDecode := fun b => Except.ok { width := 2, height := 2, data := b.content }
  wp2Decode := fun b => Except.ok { width := 2, height := 2, data := b.content }
  qoiDecode := fun b => Except.ok { width := 2, height := 2, data := b.content }
  rotate := fun d _ => Except.ok { d with data := "rot:" ++ d.data }
  quantize := fun d _ => Except.ok { d with data := "quant:" ++ d.data }

/-- A concrete environment: PNG inputs decode natively via
`builtinDecode` (failing on the designated content "BAD"), and every
codec encodes successfully to `"ENC:" ++ pixels` with extension `jpg`. -/
def envA : Env where
  sniffMimeType := fun b => b.mime
  canDecodeImageType := fun m => m = "image/png"
  builtinDecode := fun b =>
    if b.content = "BAD" then Except.error (JsErr.error "boom")
    else Except.ok { width := 1, height := 1, data := b.content }
  blobToText := fun b => b.content
  parseSvg := fun _ => { width := none, height := none, viewBox := none }
  serializeSvg := fun d => (d.width.getD "") ++ "|" ++ (d.height.getD "") ++ "|" ++ (d.viewBox.getD "")
  rasterize := fun b => Except.ok { width := 3, height := 3, data := b.content }
  resizeClient := fun pre _ _ _ => Except.ok { pre with data := "rsz:" ++ pre.data }
  encoderMap := fun _ =>
    { meta := { mimeType := "image/jpeg", extension := "jpg", defaultOptions := { quality := 75 } }
      encode := fun _ img _ => Except.ok ("ENC:" ++ img.data) }
  newWorkerBridge := bridgeOk

/-- A file whose decode fails under `envA`. -/
def fileBad : File := { blob := { content := "BAD", mime := "image/png" }, name := "a.png" }

/-- A file whose conversion succeeds under `envA`. -/
def fileGood : File := { blob := { content := "GOOD", mime := "image/png" }, name := "b.png" }

/-- A second successful file with a distinct name and content. -/
def fileGood2 : File := { blob := { content := "G2", mime := "image/png" }, name := "c.png" }

/-- Default batch options with concurrency 1. -/
def optsB : BatchOptions :=
  { encoder := EncoderType.mozJPEG
    encoderOptions := none
    preprocessorState := none
    processorState := none
    concurrency := some 1 }

/-- `envA` with an encoder that fails with `Error("boom1")`. -/
def envE1 : Env :=
  { envA with
    encoderMap := fun _ =>
      { meta := { mimeType := "image/jpeg", extension := "jpg", defaultOptions := { quality := 75 } }
        encode := fun _ _ _ => Except.error (JsErr.error "boom1") } }

/-- `envA` with an encoder that fails with `Error("boom2")`. -/
def envE2 : Env :=
  { envA with
    encoderMap := fun _ =>
      { meta := { mimeType := "image/jpeg", extension := "jpg", defaultOptions := { quality := 75 } }
        encode := fun _ _ _ => Except.error (JsErr.error "boom2") } }

/-- An environment observing SVG inputs: everything sniffs as
`image/svg+xml` and has no native decode path; `builtinDecode`
rasterizes the raw blob (no intrinsic size: 0 × 0) while `rasterize`
rasterizes a serialized document at its declared size. -/
def envSvg : Env :=
  { envA with
    sniffMimeType := fun _ => "image/svg+xml"
    canDecodeImageType := fun _ => false
    builtinDecode := fun b => Except.ok { width := 0, height := 0, data := b.content }
    parseSvg := fun _ => { width := none, height := none, viewBox := some "0 0 300 150" }
    rasterize := fun b => Except.ok { width := 300, height := 150, data := b.content } }

/-- A concrete SVG source file lacking width/height attributes. -/
def fileSvg : File :=
  { blob := { content := "svg-source-without-size", mime := "image/svg+xml" }
    name := "pic.svg" }

/-! Helper lemmas about lists, used by the scheduler invariant. -/

theorem get?_set_self {α : Type} (l : List α) (n : Nat) (a : α) (h : n < l.length) :
    (l.set n a).get? n = some a := by
  induction l generalizing n with
  | nil => simp at h
  | cons b l ih =>
    cases n with
    | zero => rfl
    | succ n => exact ih n (by simpa using h)

theorem get?_set_ne {α : Type} (l : List α) (m n : Nat) (a : α) (h : n ≠ m) :
    (l.set m a).get? n = l.get? n := by
  induction l generalizing m n with
  | nil => rfl
  | cons b l ih =>
    cases m with
    | zero =>
      cases n with
      | zero => exact absurd rfl h
      | succ n => rfl
    | succ m =>
      cases n with
      | zero => rfl
      | succ n => exact ih m n (fun hh => h (by rw [hh]))

theorem get?_replicate {α : Type} (n i : Nat) (a : α) (h : i < n) :
    (List.replicate n a).get? i = some a := by
  induction n generalizing i with
  | zero => omega
  | succ n ih =>
    cases i with
    | zero => rfl
    | succ i => exact ih i (by omega)

theorem mem_of_get? {α : Type} {l : List α} {n : Nat} {a : α} (h : l.get? n = some a) :
    a ∈ l := by
  induction l generalizing n with
  | nil => cases h
  | cons b l ih =>
    cases n with
    | zero =>
      injection h with h
      rw [← h]
      exact List.mem_cons_self _ _
    | succ n => exact List.mem_cons_of_mem _ (ih h)

theorem lt_length_of_get? {α : Type} {l : List α} {n : Nat} {a : α} (h : l.get? n = some a) :
    n < l.length := by
  induction l generalizing n with
  | nil => cases h
  | cons b l ih =>
    cases n with
    | zero => simp
    | succ n => simpa using ih h

theorem mem_set_cases {α : Type} {l : List α} {n : Nat} {a b : α} (h : a ∈ l.set n b) :
    a ∈ l ∨ a = b := by
  induction l generalizing n with
  | nil => simp [List.set] at h
  | cons c l ih =>
    cases n with
    | zero =>
      rcases List.mem_cons.mp h with h1 | h1
      · exact Or.inr h1
      · exact Or.inl (List.mem_cons_of_mem _ h1)
    | succ n =>
      rcases List.mem_cons.mp h with h1 | h1
      · exact Or.inl (h1 ▸ List.mem_cons_self _ _)
      · rcases ih h1 with h2 | h2
        · exact Or.inl (List.mem_cons_of_mem _ h2)
        · exact Or.inr h2

theorem all_set_iff {α : Type} (p : α → Bool) (b : α) :
    ∀ (l : List α) (n : Nat) (a : α), l.get? n = some a → p a = false → p b = false →
      ((∀ x ∈ l.set n b, p x = false) ↔ ∀ x ∈ l, p x = false)
  | [], _, _ => by intro h _ _; cases h
  | c :: l, 0, a => by
    intro hget ha hb
    injection hget with hca
    rw [← hca] at ha
    simp [List.forall_mem_cons, ha, hb]
  | c :: l, n + 1, a => by
    intro hget ha hb
    have ih := all_set_iff p b l n a hget ha hb
    simp [List.forall_mem_cons, ih]

theorem countCrashed_cons (w : WStatus) (ws : List WStatus) :
    countCrashed (w :: ws) = (if w.isCrashed then 1 else 0) + countCrashed ws := by
  by_cases h : w.isCrashed
  · simp [countCrashed, List.filter_cons, h, Nat.add_comm]
  · simp [countCrashed, List.filter_cons, h]

theorem countCrashed_le (ws : List WStatus) : countCrashed ws ≤ ws.length :=
  List.length_filter_le _ _

theorem countCrashed_set (ws : List WStatus) (n : Nat) (a b : WStatus)
    (hget : ws.get? n = some a) (ha : a.isCrashed = false) :
    countCrashed (ws.set n b) = countCrashed ws + (if b.isCrashed then 1 else 0) := by
  induction ws generalizing n with
  | nil => cases hget
  | cons c ws ih =>
    cases n with
    | zero =>
      injection hget with hca
      rw [← hca] at ha
      simp [countCrashed_cons, ha]
      omega
    | succ n =>
      simp only [List.set, countCrashed_cons, ih n hget]
      omega

theorem countCrashed_eq_length (ws : List WStatus) (h : countCrashed ws = ws.length) :
    ∀ x ∈ ws, x.isCrashed = true := by
  induction ws with
  | nil => simp
  | cons c ws ih =>
    by_cases hc : c.isCrashed
    · intro x hx
      rcases List.mem_cons.mp hx with h1 | h1
      · rw [h1]; exact hc
      · have hrec : countCrashed ws = ws.length := by
          have h2 := countCrashed_cons c ws
          rw [hc] at h2
          simp at h2
          simp [h2, List.length_cons] at h
          omega
        exact ih hrec x h1
    · exfalso
      have h1 := countCrashed_cons c ws
      have h2 := countCrashed_le ws
      rw [h1] at h
      simp [hc, List.length_cons] at h
      omega

theorem countCrashed_eq_length_of_all (ws : List WStatus)
    (h : ∀ x ∈ ws, x.isCrashed = true) : countCrashed ws = ws.length := by
  induction ws with
  | nil => rfl
  | cons c ws ih =>
    have hc := h c (List.mem_cons_self _ _)
    rw [countCrashed_cons, hc, ih (fun x hx => h x (List.mem_cons_of_mem _ hx))]
    simp [List.length_cons, Nat.add_comm]

theorem countCrashed_replicate_running (n : Nat) :
    countCrashed (List.replicate n WStatus.running) = 0 := by
  induction n with
  | zero => rfl
  | succ n ih =>
    rw [List.replicate_succ, countCrashed_cons, ih]
    rfl

/-! Basic facts about the single-item pipeline. -/

theorem convertFile_aborted (env : Env) (f : File) (opts : ConvertOptions) :
    (convertFile env f opts true).1 = Except.error JsErr.abortError := rfl

theorem itemOutcome_aborted (env : Env) (files : List File) (opts : BatchOptions) (idx : Nat) :
    itemOutcome env files opts true idx = Except.error JsErr.abortError :=
  convertFile_aborted env _ opts.toConvertOptions

theorem convertFile_ok_input (env : Env) (f : File) (opts : ConvertOptions) (aborted : Bool)
    (r : ConvertResult) (h : (convertFile env f opts aborted).1 = Except.ok r) :
    r.input = f := by
  simp only [convertFile] at h
  split at h
  · simp at h
  · split at h
    · simp at h
    · split at h
      · simp at h
      · split at h
        · simp at h
        · simp at h
          rw [← h]

/-! Case equations for one scheduler turn. -/

theorem batchStep_eq_skip (env : Env) (files : List File) (opts : BatchOptions) (aborted : Bool)
    (s : BatchState) (w : Nat) (hget : s.workers.get? w ≠ some WStatus.running) :
    batchStep env files opts aborted s w = s := by
  unfold batchStep
  cases h : s.workers.get? w with
  | none => rfl
  | some st =>
    cases st with
    | running => exact absurd h hget
    | stopped => rfl
    | crashed e => rfl

theorem batchStep_eq_stop (env : Env) (files : List File) (opts : BatchOptions) (aborted : Bool)
    (s : BatchState) (w : Nat) (hget : s.workers.get? w = some WStatus.running)
    (hq : s.queue = []) :
    batchStep env files opts aborted s w = { s with workers := s.workers.set w WStatus.stopped } := by
  simp only [batchStep, hget, hq]

theorem batchStep_eq_ok (env : Env) (files : List File) (opts : BatchOptions) (aborted : Bool)
    (s : BatchState) (w idx : Nat) (rest : List Nat) (res : ConvertResult)
    (hget : s.workers.get? w = some WStatus.running) (hq : s.queue = idx :: rest)
    (hout : itemOutcome env files opts aborted idx = Except.ok res) :
    batchStep env files opts aborted s w =
      { queue := rest
        results := s.results.set idx (some res)
        done := s.done + 1
        progressLog := s.progressLog ++ [(s.done + 1, files.length)]
        workers := s.workers
        firstRejection := s.firstRejection } := by
  simp only [batchStep, hget, hq, hout]

theorem batchStep_eq_err (env : Env) (files : List File) (opts : BatchOptions) (aborted : Bool)
    (s : BatchState) (w idx : Nat) (rest : List Nat) (e : JsErr)
    (hget : s.workers.get? w = some WStatus.running) (hq : s.queue = idx :: rest)
    (hout : itemOutcome env files opts aborted idx = Except.error e) :
    batchStep env files opts aborted s w =
      { queue := rest
        results := s.results
        done := s.done + 1
        progressLog := s.progressLog ++ [(s.done + 1, files.length)]
        workers := s.workers.set w (WStatus.crashed e)
        firstRejection :=
          match s.firstRejection with
          | none => some e
          | some e0 => some e0 } := by
  simp only [batchStep, hget, hq, hout]

/-! Establishing and preserving the scheduler invariant. -/

theorem batchInv_init (env : Env) (files : List File) (opts : BatchOptions) (aborted : Bool) :
    BatchInv env files opts aborted (initBatchState files opts) := by
  constructor
  · simp [initBatchState]
  · simp [initBatchState]
  · intro i hi
    exact List.mem_range.mp (by simpa [initBatchState] using hi)
  · simp [initBatchState, List.nodup_range]
  · intro i hi
    have h1 : i < files.length := List.mem_range.mp (by simpa [initBatchState] using hi)
    simpa [initBatchState] using get?_replicate files.length i none h1
  · intro i h1 h2
    exact absurd (by simpa [initBatchState] using List.mem_range.mpr h1) h2
  · simp [initBatchState]
  · simp [initBatchState]
  · rintro ⟨w, hw, rfl⟩
    simp only [initBatchState] at hw
    have := List.eq_of_mem_replicate hw
    cases this
  · intro _ i h1 h2
    exact absurd (by simpa [initBatchState] using List.mem_range.mpr h1) h2
  · constructor
    · intro _ w hw
      simp only [initBatchState] at hw
      have := List.eq_of_mem_replicate hw
      rw [this]
      rfl
    · intro _
      rfl

theorem batchInv_step (env : Env) (files : List File) (opts : BatchOptions) (aborted : Bool)
    (s : BatchState) (w : Nat) (inv : BatchInv env files opts aborted s) :
    BatchInv env files opts aborted (batchStep env files opts aborted s w) := by
  by_cases hget : s.workers.get? w = some WStatus.running
  · cases hq : s.queue with
    | nil =>
      rw [batchStep_eq_stop env files opts aborted s w hget hq]
      have hiff := all_set_iff WStatus.isCrashed WStatus.stopped s.workers w
        WStatus.running hget rfl rfl
      constructor
      · exact inv.len_results
      · simpa using inv.len_workers
      · exact inv.queue_lt
      · exact inv.queue_nodup
      · exact inv.queued_none
      · exact inv.popped_slot
      · exact inv.done_queue
      · exact inv.progress_canon
      · intro _
        exact hq
      · intro h
        exact inv.nocrash_ok (hiff.mp h)
      · exact inv.rejection_iff.trans hiff.symm
    | cons idx rest =>
      have hidxq : idx ∈ s.queue := by rw [hq]; exact List.mem_cons_self _ _
      have hidxT : idx < files.length := inv.queue_lt idx hidxq
      have hnodup := inv.queue_nodup
      rw [hq] at hnodup
      have hidxrest : idx ∉ rest := (List.nodup_cons.mp hnodup).1
      have hrestnodup : rest.Nodup := (List.nodup_cons.mp hnodup).2
      have hmemq : ∀ i ∈ rest, i ∈ s.queue := by
        intro i hi; rw [hq]; exact List.mem_cons_of_mem _ hi
      have hqlen : s.queue.length = rest.length + 1 := by rw [hq]; rfl
      cases hout : itemOutcome env files opts aborted idx with
      | ok res =>
        rw [batchStep_eq_ok env files opts aborted s w idx rest res hget hq hout]
        constructor
        · simpa using inv.len_results
        · exact inv.len_workers
        · intro i hi
          exact inv.queue_lt i (hmemq i hi)
        · exact hrestnodup
        · intro i hi
          have hne : i ≠ idx := fun hh => hidxrest (hh ▸ hi)
          rw [get?_set_ne s.results idx i (some res) hne]
          exact inv.queued_none i (hmemq i hi)
        · intro i h1 h2
          by_cases hcase : i = idx
          · subst hcase
            rw [get?_set_self s.results i (some res) (by rw [inv.len_results]; exact h1)]
            unfold slotOutcome
            rw [hout]
          · rw [get?_set_ne s.results idx i (some res) hcase]
            refine inv.popped_slot i h1 ?_
            rw [hq]
            intro hmem
            rcases List.mem_cons.mp hmem with h3 | h3
            · exact hcase h3
            · exact h2 h3
        · have := inv.done_queue
          simp only [hqlen] at this
          simpa using by omega
        · rw [inv.progress_canon, List.range_succ, List.map_append]
          rfl
        · intro h
          have := inv.stopped_queue h
          rw [hq] at this
          cases this
        · intro h i h1 h2
          by_cases hcase : i = idx
          · exact ⟨res, hcase ▸ hout⟩
          · refine inv.nocrash_ok h i h1 ?_
            rw [hq]
            intro hmem
            rcases List.mem_cons.mp hmem with h3 | h3
            · exact hcase h3
            · exact h2 h3
        · exact inv.rejection_iff
      | error e =>
        rw [batchStep_eq_err env files opts aborted s w idx rest e hget hq hout]
        have hwlt : w < s.workers.length := lt_length_of_get? hget
        have hcrashmem : WStatus.crashed e ∈ s.workers.set w (WStatus.crashed e) :=
          mem_of_get? (get?_set_self s.workers w (WStatus.crashed e) hwlt)
        constructor
        · exact inv.len_results
        · simpa using inv.len_workers
        · intro i hi
          exact inv.queue_lt i (hmemq i hi)
        · exact hrestnodup
        · intro i hi
          exact inv.queued_none i (hmemq i hi)
        · intro i h1 h2
          by_cases hcase : i = idx
          · subst hcase
            have := inv.queued_none i hidxq
            rw [this]
            unfold slotOutcome
            rw [hout]
          · refine inv.popped_slot i h1 ?_
            rw [hq]
            intro hmem
            rcases List.mem_cons.mp hmem with h3 | h3
            · exact hcase h3
            · exact h2 h3
        · have := inv.done_queue
          simp only [hqlen] at this
          simpa using by omega
        · rw [inv.progress_canon, List.range_succ, List.map_append]
          rfl
        · rintro ⟨x, hx, rfl⟩
          rcases mem_set_cases hx with h1 | h1
          · have := inv.stopped_queue ⟨_, h1, rfl⟩
            rw [hq] at this
            cases this
          · cases h1
        · intro h
          exact absurd (h _ hcrashmem) (by simp [WStatus.isCrashed])
        · constructor
          · intro hnone
            exact absurd hnone (by cases hfr : s.firstRejection <;> simp [hfr])
          · intro h
            exact absurd (h _ hcrashmem) (by simp [WStatus.isCrashed])
  · rw [batchStep_eq_skip env files opts aborted s w hget]
    exact inv

theorem batchInv_fold (env : Env) (files : List File) (opts : BatchOptions) (aborted : Bool) :
    ∀ (sched : List Nat) (s : BatchState), BatchInv env files opts aborted s →
      BatchInv env files opts aborted (sched.foldl (batchStep env files opts aborted) s)
  | [], _, h => h
  | w :: sched, s, h =>
    batchInv_fold env files opts aborted sched _ (batchInv_step env files opts aborted s w h)

theorem runBatch_inv (env : Env) (files : List File) (opts : BatchOptions) (aborted : Bool)
    (sched : List Nat) : BatchInv env files opts aborted (runBatch env files opts aborted sched) :=
  batchInv_fold env files opts aborted sched _ (batchInv_init env files opts aborted)

/-! Consequences for runs in which `Promise.all` resolves. -/

theorem resolved_nocrash (s : BatchState) (h : batchResolved s = true) :
    ∀ w ∈ s.workers, w.isCrashed = false := by
  intro w hw
  have := List.all_eq_true.mp h w hw
  cases w with
  | running => rfl
  | stopped => rfl
  | crashed e => cases this

theorem resolved_queue_nil (env : Env) (files : List File) (opts : BatchOptions)
    (aborted : Bool) (s : BatchState) (inv : BatchInv env files opts aborted s)
    (h : batchResolved s = true) : s.queue = [] := by
  cases hw : s.workers with
  | nil =>
    have hlw := inv.len_workers
    rw [hw] at hlw
    have h1 : (1 : Int) ≤ concClamped opts.concurrency := le_max_left _ _
    have h2 : 1 ≤ (concClamped opts.concurrency).toNat := by
      have := Int.toNat_le_toNat h1
      simpa using this
    have hT : files.length = 0 := by
      unfold numWorkers at hlw
      simp at hlw
      omega
    have hdq := inv.done_queue
    rw [hT] at hdq
    exact List.length_eq_zero.mp (by omega)
  | cons a ws =>
    have ha : WStatus.isStopped a = true := by
      have h2 := h
      unfold batchResolved at h2
      rw [hw] at h2
      exact (List.all_eq_true.mp h2) a (List.mem_cons_self _ _)
    have ha2 : a = WStatus.stopped := by
      cases a with
      | running => cases ha
      | stopped => rfl
      | crashed e => cases ha
    exact inv.stopped_queue ⟨a, by rw [hw]; exact List.mem_cons_self _ _, ha2⟩

/-! The invariant special to runs whose token fired before any item
started. -/

theorem abortedInv_init (files : List File) (opts : BatchOptions) :
    AbortedInv (initBatchState files opts) := by
  constructor
  · intro w hw
    simp only [initBatchState] at hw
    exact Or.inl (List.eq_of_mem_replicate hw)
  · intro r hr
    simp only [initBatchState] at hr
    exact List.eq_of_mem_replicate hr
  · simp [initBatchState, countCrashed_replicate_running]
  · simp [initBatchState, countCrashed_replicate_running]

theorem abortedInv_step (env : Env) (files : List File) (opts : BatchOptions)
    (s : BatchState) (w : Nat) (inv : BatchInv env files opts true s) (ainv : AbortedInv s) :
    AbortedInv (batchStep env files opts true s w) := by
  by_cases hget : s.workers.get? w = some WStatus.running
  · cases hq : s.queue with
    | nil =>
      have hT : s.done = files.length := by
        have := inv.done_queue
        rw [hq] at this
        simpa using this
      have hcc : countCrashed s.workers = files.length := by
        rw [← ainv.done_crashed]
        exact hT
      have hle : countCrashed s.workers ≤ s.workers.length := countCrashed_le _
      have hlw := inv.len_workers
      have hnw : numWorkers opts.concurrency files.length ≤ files.length :=
        min_le_right _ _
      have heq : countCrashed s.workers = s.workers.length := by omega
      have hall := countCrashed_eq_length _ heq
      have := hall _ (mem_of_get? hget)
      exact absurd this (by decide)
    | cons idx rest =>
      have hout := itemOutcome_aborted env files opts idx
      rw [batchStep_eq_err env files opts true s w idx rest JsErr.abortError hget hq hout]
      have hcount := countCrashed_set s.workers w WStatus.running
        (WStatus.crashed JsErr.abortError) hget rfl
      constructor
      · intro x hx
        rcases mem_set_cases hx with h1 | h1
        · exact ainv.workers_ra x h1
        · exact Or.inr h1
      · exact ainv.results_none
      · rw [hcount]
        simp [WStatus.isCrashed, ainv.done_crashed]
      · rw [hcount]
        simp only [WStatus.isCrashed, if_pos]
        rcases hfr : s.firstRejection with _ | e0
        · simp
        · have hre := ainv.rejection_eq
          rw [hfr] at hre
          by_cases h0 : countCrashed s.workers = 0
          · rw [if_pos h0] at hre
            cases hre
          · rw [if_neg h0] at hre
            injection hre with h2
            simp [h2]
  · rw [batchStep_eq_skip env files opts true s w hget]
    exact ainv

theorem abortedInv_fold (env : Env) (files : List File) (opts : BatchOptions) :
    ∀ (sched : List Nat) (s : BatchState),
      BatchInv env files opts true s → AbortedInv s →
      AbortedInv (sched.foldl (batchStep env files opts true) s)
  | [], _, _, h2 => h2
  | w :: sched, s, h1, h2 =>
    abortedInv_fold env files opts sched _ (batchInv_step env files opts true s w h1)
      (abortedInv_step env files opts s w h1 h2)

theorem runBatch_abortedInv (env : Env) (files : List File) (opts : BatchOptions)
    (sched : List Nat) : AbortedInv (runBatch env files opts true sched) :=
  abortedInv_fold env files opts sched _ (batchInv_init env files opts true)
    (abortedInv_init files opts)

/-! The claims. -/

/-- C1: evaluation of the batch scheduler at a concrete failing input,
exhibiting the divergence from the claimed failure isolation.  With
files `[fileBad, fileGood]` and concurrency 1, item 0's conversion
fails with the classified `DecodeError`; because the worker loop's
`try`/`finally` has no catch, the error escapes the loop: no failure is
recorded at slot 0, the worker dies, item 1 — which would succeed, as
the second conjunct shows — is never popped, and `Promise.all` rejects
with the item's error, so `convertFiles` rejects instead of returning
per-slot outcomes. -/
theorem convertBatch_item_failure_aborts_batch :
    runBatch envA [fileBad, fileGood] optsB false [0, 0, 0, 0] =
      { queue := [1]
        results := [none, none]
        done := 1
        progressLog := [(1, 2)]
        workers := [WStatus.crashed (JsErr.error "Couldn't decode image")]
        firstRejection := some (JsErr.error "Couldn't decode image") } ∧
    itemOutcome envA [fileBad, fileGood] optsB false 1 = Except.ok
      { input := fileGood
        output := { blob := { content := "ENC:GOOD", mime := "image/jpeg" }, name := "b.jpg" }
        processed := some { width := 1, height := 1, data := "GOOD" } } :=
  ⟨rfl, rfl⟩

/-- C2: in every run, under every schedule, in which `convertFiles`
resolves (every worker drained the queue and returned), the results
collection has exactly `T` slots and slot `i` holds precisely the
outcome of converting input file `i` — a success result whose `input`
field is file `i`.  Completion order is irrelevant: the schedule is
universally quantified. -/
theorem convertBatch_index_fidelity (env : Env) (files : List File) (opts : BatchOptions)
    (aborted : Bool) (sched : List Nat)
    (h : batchResolved (runBatch env files opts aborted sched) = true) :
    (runBatch env files opts aborted sched).results.length = files.length ∧
    ∀ i, i < files.length → ∃ r,
      (runBatch env files opts aborted sched).results.get? i = some (some r) ∧
      itemOutcome env files opts aborted i = Except.ok r ∧
      r.input = files.getD i defaultFile := by
  have inv := runBatch_inv env files opts aborted sched
  have hq := resolved_queue_nil env files opts aborted _ inv h
  refine ⟨inv.len_results, fun i hi => ?_⟩
  have hni : i ∉ (runBatch env files opts aborted sched).queue := by
    rw [hq]
    simp
  obtain ⟨r, hr⟩ := inv.nocrash_ok (resolved_nocrash _ h) i hi hni
  refine ⟨r, ?_, hr, convertFile_ok_input env _ opts.toConvertOptions aborted r hr⟩
  have := inv.popped_slot i hi hni
  rw [this]
  unfold slotOutcome
  rw [hr]

/-- Witness for C2: a concrete resolved two-file batch. -/
theorem convertBatch_index_fidelity_witness :
    batchResolved (runBatch envA [fileGood, fileGood2] optsB false [0, 0, 0]) = true ∧
    ((runBatch envA [fileGood, fileGood2] optsB false [0, 0, 0]).results.length =
        [fileGood, fileGood2].length ∧
     ∀ i, i < [fileGood, fileGood2].length → ∃ r,
       (runBatch envA [fileGood, fileGood2] optsB false [0, 0, 0]).results.get? i =
         some (some r) ∧
       itemOutcome envA [fileGood, fileGood2] optsB false i = Except.ok r ∧
       r.input = [fileGood, fileGood2].getD i defaultFile) :=
  ⟨rfl, convertBatch_index_fidelity envA [fileGood, fileGood2] optsB false [0, 0, 0] rfl⟩

/-- C3: in every run of the batch scheduler, under every schedule, the
progress log is exactly `(1,T), (2,T), …, (done,T)`: the first report
carries `done = 1`, each finalized item appends exactly one report
whose `done` is one larger (the step function appends the report in
the same atomic turn that finalizes the item), and `done` never
exceeds `total`; `done` always equals the number of finalized items
(`T` minus the queue length, each index popped at most once), and a
run that completes without cancellation (`Promise.all` resolved)
reports `done = total` last. -/
theorem convertBatch_progress_canonical (env : Env) (files : List File) (opts : BatchOptions)
    (aborted : Bool) (sched : List Nat) :
    (runBatch env files opts aborted sched).progressLog =
      (List.range (runBatch env files opts aborted sched).done).map
        (fun j => (j + 1, files.length)) ∧
    (runBatch env files opts aborted sched).done +
      (runBatch env files opts aborted sched).queue.length = files.length ∧
    (runBatch env files opts aborted sched).done ≤ files.length ∧
    (batchResolved (runBatch env files opts aborted sched) = true →
      (runBatch env files opts aborted sched).done = files.length) := by
  have inv := runBatch_inv env files opts aborted sched
  refine ⟨inv.progress_canon, inv.done_queue, ?_, ?_⟩
  · have := inv.done_queue
    omega
  · intro h
    have hq := resolved_queue_nil env files opts aborted _ inv h
    have := inv.done_queue
    rw [hq] at this
    simpa using this

/-- Witness for C3: the canonical progress log of a concrete completed
run, with the final implication discharged. -/
theorem convertBatch_progress_canonical_witness :
    batchResolved (runBatch envA [fileGood, fileGood2] optsB false [0, 0, 0]) = true ∧
    (runBatch envA [fileGood, fileGood2] optsB false [0, 0, 0]).done =
      [fileGood, fileGood2].length :=
  ⟨rfl, (convertBatch_progress_canonical envA [fileGood, fileGood2] optsB false [0, 0, 0]).2.2.2 rfl⟩

/-- C4 counterexample: with the token fired before any item starts, a
one-file batch under concurrency 1 invokes the progress callback once
(with `(1, 1)`), not zero times as claimed: the worker pops index 0,
`convertFile` rejects with the `AbortError`, and the `finally` block
still increments `done` and reports progress before the error kills
the worker. -/
theorem convertBatch_aborted_progress_cex :
    (runBatch envA [fileGood] optsB true [0]).progressLog = [(1, 1)] ∧
    ([((1 : Nat), (1 : Nat))] : List (Nat × Nat)) ≠ [] :=
  ⟨rfl, by decide⟩

/-- C4 as amended: when the token has already fired, every run stores
zero successful results under any schedule; and once all workers have
settled, the progress callback has fired exactly once per spawned
worker — `min(clamp(concurrency), T)` times, with the canonical
arguments — and `convertFiles` rejects with the `AbortError` (whenever
any worker was spawned at all). -/
theorem convertBatch_aborted_semantics (env : Env) (files : List File) (opts : BatchOptions)
    (sched : List Nat) :
    (∀ r ∈ (runBatch env files opts true sched).results, r = none) ∧
    (batchTerminal (runBatch env files opts true sched) = true →
      (runBatch env files opts true sched).done = numWorkers opts.concurrency files.length ∧
      (runBatch env files opts true sched).progressLog =
        (List.range (numWorkers opts.concurrency files.length)).map
          (fun j => (j + 1, files.length)) ∧
      (runBatch env files opts true sched).firstRejection =
        (if numWorkers opts.concurrency files.length = 0 then none
         else some JsErr.abortError)) := by
  have inv := runBatch_inv env files opts true sched
  have ainv := runBatch_abortedInv env files opts sched
  refine ⟨ainv.results_none, fun hterm => ?_⟩
  have hall : ∀ x ∈ (runBatch env files opts true sched).workers, x.isCrashed = true := by
    intro x hx
    have hnr := List.all_eq_true.mp hterm x hx
    rcases ainv.workers_ra x hx with h1 | h1
    · rw [h1] at hnr
      cases hnr
    · rw [h1]
      rfl
  have hcount : countCrashed (runBatch env files opts true sched).workers =
      numWorkers opts.concurrency files.length := by
    rw [countCrashed_eq_length_of_all _ hall]
    exact inv.len_workers
  have hdone : (runBatch env files opts true sched).done =
      numWorkers opts.concurrency files.length := by
    rw [ainv.done_crashed, hcount]
  refine ⟨hdone, ?_, ?_⟩
  · rw [inv.progress_canon, hdone]
  · rw [ainv.rejection_eq, hcount]

/-- Witness for C4's amended theorem: a concrete fully-settled aborted
run (one file, one worker) with both hypotheses discharged. -/
theorem convertBatch_aborted_semantics_witness :
    batchTerminal (runBatch envA [fileGood] optsB true [0]) = true ∧
    (runBatch envA [fileGood] optsB true [0]).done = numWorkers optsB.concurrency 1 ∧
    (runBatch envA [fileGood] optsB true [0]).firstRejection = some JsErr.abortError :=
  ⟨rfl,
   ((convertBatch_aborted_semantics envA [fileGood] optsB [0]).2 rfl).1,
   by
     have := ((convertBatch_aborted_semantics envA [fileGood] optsB [0]).2 rfl).2.2
     simpa using this⟩

/-- C5 counterexample: encode-stage failures are not classified.  Two
runs identical except for the encode capability's failure message
surface two different errors from `convertOne` — each exactly the
capability's own raw error — so no fixed `EncodeError` classification
exists (contrast the third conjunct: a decode failure does surface as
the fixed classified error). -/
theorem encode_error_unclassified_cex :
    (convertFile envE1 fileGood optsB.toConvertOptions false).1 =
      Except.error (JsErr.error "boom1") ∧
    (convertFile envE2 fileGood optsB.toConvertOptions false).1 =
      Except.error (JsErr.error "boom2") ∧
    (convertFile envA fileBad optsB.toConvertOptions false).1 =
      Except.error (JsErr.error "Couldn't decode image") ∧
    ¬ ∃ c : JsErr,
        (convertFile envE1 fileGood optsB.toConvertOptions false).1 = Except.error c ∧
        (convertFile envE2 fileGood optsB.toConvertOptions false).1 = Except.error c := by
  refine ⟨rfl, rfl, rfl, ?_⟩
  rintro ⟨c, h1, h2⟩
  have e1 : (Except.error (JsErr.error "boom1") : Except JsErr ConvertResult) =
      Except.error c := h1
  have e2 : (Except.error (JsErr.error "boom2") : Except JsErr ConvertResult) =
      Except.error c := h2
  injection e1 with e1
  injection e2 with e2
  rw [← e1] at e2
  exact absurd e2 (by decide)

/-- C5 as amended: (i) a non-cancellation failure of the decode
dispatch surfaces from `decodeImage` as the fixed classified
DecodeError `Error("Couldn't decode image")`; (ii) a cancellation
error raised inside the decode dispatch propagates unmodified; (iii)
`encodeImage` applies no classification at all — any encode-capability
failure, cancellation or not, propagates unmodified; (iv) and (v)
`convertFile` surfaces a failing stage's error unchanged, so the error
reaching the caller of `convertOne` is exactly the stage error. -/
theorem convertFile_error_propagation (env : Env) :
    (∀ (b : Blob) (w : WorkerBridge) (m : String),
      (decodeDispatch env w (env.canDecodeImageType (env.sniffMimeType b))
          (env.sniffMimeType b) b).1 = Except.error (JsErr.error m) →
      (decodeImage false env b w).1 = Except.error (JsErr.error "Couldn't decode image")) ∧
    (∀ (b : Blob) (w : WorkerBridge),
      (decodeDispatch env w (env.canDecodeImageType (env.sniffMimeType b))
          (env.sniffMimeType b) b).1 = Except.error JsErr.abortError →
      (decodeImage false env b w).1 = Except.error JsErr.abortError) ∧
    (∀ (img : ImageData) (st : EncoderState) (nm : String) (w : WorkerBridge) (e : JsErr),
      (env.encoderMap st.type).encode w img st.options = Except.error e →
      (encodeImage false env img st nm w).1 = Except.error e) ∧
    (∀ (f : File) (opts : ConvertOptions) (e : JsErr),
      (decodeImage false env f.blob env.newWorkerBridge).1 = Except.error e →
      (convertFile env f opts false).1 = Except.error e) ∧
    (∀ (f : File) (opts : ConvertOptions) (e : JsErr)
        (decoded preprocessed processed : ImageData),
      (decodeImage false env f.blob env.newWorkerBridge).1 = Except.ok decoded →
      (preprocessImage false decoded (opts.preprocessorState.getD defaultPreprocessorState)
          env.newWorkerBridge).1 = Except.ok preprocessed →
      (processImage false env { preprocessed := preprocessed, decoded := decoded }
          (opts.processorState.getD defaultProcessorState) env.newWorkerBridge).1 =
        Except.ok processed →
      (encodeImage false env processed
          { type := opts.encoder
            options := opts.encoderOptions.getD (env.encoderMap opts.encoder).meta.defaultOptions }
          f.name env.newWorkerBridge).1 = Except.error e →
      (convertFile env f opts false).1 = Except.error e) := by
  refine ⟨?_, ?_, ?_, ?_, ?_⟩
  · intro b w m hd
    simp only [decodeImage, Bool.false_eq_true, if_false]
    rcases hpair : decodeDispatch env w (env.canDecodeImageType (env.sniffMimeType b))
        (env.sniffMimeType b) b with ⟨res, tr⟩
    rw [hpair] at hd
    have hd2 : res = Except.error (JsErr.error m) := hd
    rw [hd2]
    rfl
  · intro b w hd
    simp only [decodeImage, Bool.false_eq_true, if_false]
    rcases hpair : decodeDispatch env w (env.canDecodeImageType (env.sniffMimeType b))
        (env.sniffMimeType b) b with ⟨res, tr⟩
    rw [hpair] at hd
    have hd2 : res = Except.error JsErr.abortError := hd
    rw [hd2]
    rfl
  · intro img st nm w e henc
    simp only [encodeImage, Bool.false_eq_true, if_false]
    rw [henc]
  · intro f opts e hd
    simp only [convertFile]
    rcases hpair : decodeImage false env f.blob env.newWorkerBridge with ⟨res, tr⟩
    rw [hpair] at hd
    have hd2 : res = Except.error e := hd
    rw [hd2]
  · intro f opts e decoded preprocessed processed hdec hpre hproc henc
    rcases h1 : decodeImage false env f.blob env.newWorkerBridge with ⟨r1, t1⟩
    rw [h1] at hdec
    have h1b : r1 = Except.ok decoded := hdec
    rw [h1b] at h1
    rcases h2 : preprocessImage false decoded
        (opts.preprocessorState.getD defaultPreprocessorState) env.newWorkerBridge with ⟨r2, t2⟩
    rw [h2] at hpre
    have h2b : r2 = Except.ok preprocessed := hpre
    rw [h2b] at h2
    rcases h3 : processImage false env { preprocessed := preprocessed, decoded := decoded }
        (opts.processorState.getD defaultProcessorState) env.newWorkerBridge with ⟨r3, t3⟩
    rw [h3] at hproc
    have h3b : r3 = Except.ok processed := hproc
    rw [h3b] at h3
    rcases h4 : encodeImage false env processed
        { type := opts.encoder
          options := opts.encoderOptions.getD (env.encoderMap opts.encoder).meta.defaultOptions }
        f.name env.newWorkerBridge with ⟨r4, t4⟩
    rw [h4] at henc
    have h4b : r4 = Except.error e := henc
    rw [h4b] at h4
    simp only [convertFile, h1, h2, h3, h4]

/-- Witness for C5's amended theorem: the classification applied at
concrete failing inputs (decode failure wrapped; encode failure
propagated raw through `encodeImage` and `convertFile`). -/
theorem convertFile_error_propagation_witness :
    (decodeDispatch envA bridgeOk
        (envA.canDecodeImageType (envA.sniffMimeType fileBad.blob))
        (envA.sniffMimeType fileBad.blob) fileBad.blob).1 =
      Except.error (JsErr.error "boom") ∧
    (decodeImage false envA fileBad.blob bridgeOk).1 =
      Except.error (JsErr.error "Couldn't decode image") ∧
    (envE1.encoderMap EncoderType.mozJPEG).encode bridgeOk
        { width := 1, height := 1, data := "GOOD" } { quality := 75 } =
      Except.error (JsErr.error "boom1") ∧
    (encodeImage false envE1 { width := 1, height := 1, data := "GOOD" }
        { type := EncoderType.mozJPEG, options := { quality := 75 } } "b.png" bridgeOk).1 =
      Except.error (JsErr.error "boom1") :=
  ⟨rfl,
   (convertFile_error_propagation envA).1 fileBad.blob bridgeOk "boom" rfl,
   rfl,
   (convertFile_error_propagation envE1).2.2.1
     { width := 1, height := 1, data := "GOOD" }
     { type := EncoderType.mozJPEG, options := { quality := 75 } } "b.png" bridgeOk
     (JsErr.error "boom1") rfl⟩

/-- C6: the number of workers `convertFiles` spawns is
`min(clamp(requested, 1, 8), T)` — the length of the spawned worker
array equals exactly that; requesting a nonpositive concurrency clamps
to 1, requesting 100 spawns `min(8, T)` workers, and an unspecified
concurrency defaults to 2. -/
theorem convertBatch_concurrency_clamp (files : List File) (o : BatchOptions) :
    ((initBatchState files o).workers.length =
      min (max 1 (min (o.concurrency.getD 2) 8)).toNat files.length) ∧
    (∀ r : Int, r ≤ 0 → concClamped (some r) = 1) ∧
    concClamped (some 100) = 8 ∧
    ((initBatchState files { o with concurrency := some 100 }).workers.length =
      min 8 files.length) ∧
    concClamped none = 2 := by
  refine ⟨by simp [initBatchState, numWorkers, concClamped], ?_, by decide, ?_, by decide⟩
  · intro r hr
    unfold concClamped
    simp only [Option.getD]
    omega
  · have h8 : concClamped (some 100) = 8 := by decide
    simp [initBatchState, numWorkers, h8]

/-- Witness for C6: the clamp at the concrete requested value `-5`. -/
theorem convertBatch_concurrency_clamp_witness :
    ((-5 : Int) ≤ 0) ∧ concClamped (some (-5)) = 1 ∧
    (initBatchState [fileGood, fileGood2] optsB).workers.length =
      min (max 1 (min (optsB.concurrency.getD 2) 8)).toNat 2 :=
  ⟨by decide,
   (convertBatch_concurrency_clamp [] optsB).2.1 (-5) (by decide),
   (convertBatch_concurrency_clamp [fileGood, fileGood2] optsB).1⟩

/-- C7 counterexample: the Decode stage of `convertOne` does not
normalize SVG.  Under an environment in which the claimed behaviour
(inject width/height from the viewBox, serialize, rasterize) would
produce the 300×150 image shown in the third conjunct, the core's
`decodeImage` instead hands the raw blob to the builtin decode,
producing a different (0×0) image, and its capability trace is exactly
one builtin-decode call on the raw blob. -/
theorem svg_not_normalized_cex :
    envSvg.sniffMimeType fileSvg.blob = "image/svg+xml" ∧
    (decodeImage false envSvg fileSvg.blob bridgeOk).1 =
      Except.ok { width := 0, height := 0, data := "svg-source-without-size" } ∧
    wrapDecode (envSvg.rasterize
      { content := envSvg.serializeSvg (normalizeSvg (envSvg.parseSvg
          (envSvg.blobToText fileSvg.blob)))
        mime := "image/svg+xml" }) =
      Except.ok { width := 300, height := 150, data := "300|150|0 0 300 150" } ∧
    ({ width := 0, height := 0, data := "svg-source-without-size" } : ImageData) ≠
      { width := 300, height := 150, data := "300|150|0 0 300 150" } ∧
    (decodeImage false envSvg fileSvg.blob bridgeOk).2 = [Call.builtinDecode fileSvg.blob] :=
  ⟨rfl, rfl, rfl, by decide, rfl⟩

/-- C7 as amended: for every SVG input (sniffed `image/svg+xml`, no
native decode path), the Decode stage of `convertOne` performs no
normalization — it passes the raw blob to the builtin decode, its
only capability call; the width/height injection from the viewBox
exists only in the legacy batch component's `decodeImage`, which
parses the source, injects width/height from the viewBox when either
attribute is absent, serializes the normalized document into a fresh
SVG blob and rasterizes that. -/
theorem svg_normalization_only_legacy (env : Env) (b : Blob) (w : WorkerBridge)
    (hm : env.sniffMimeType b = "image/svg+xml")
    (hc : env.canDecodeImageType "image/svg+xml" = false) :
    (decodeImage false env b w).1 = wrapDecode (env.builtinDecode b) ∧
    (decodeImage false env b w).2 = [Call.builtinDecode b] ∧
    Legacy.decodeImage false env b w = wrapDecode (env.rasterize
      { content := env.serializeSvg (normalizeSvg (env.parseSvg (env.blobToText b)))
        mime := "image/svg+xml" }) ∧
    (∀ (d : SvgDoc) (vb : String), d.width = none → d.viewBox = some vb →
      normalizeSvg d =
        { d with width := some (svgPart vb 2), height := some (svgPart vb 3) }) := by
  refine ⟨?_, ?_, ?_, ?_⟩
  · simp [decodeImage, decodeDispatch, hm, hc]
  · simp [decodeImage, decodeDispatch, hm, hc]
  · simp [Legacy.decodeImage, hm, hc]
  · intro d vb h1 h2
    simp [normalizeSvg, h1, h2]

/-- Witness for C7's amended theorem: the concrete SVG environment and
file, with both hypotheses discharged. -/
theorem svg_normalization_only_legacy_witness :
    envSvg.sniffMimeType fileSvg.blob = "image/svg+xml" ∧
    envSvg.canDecodeImageType "image/svg+xml" = false ∧
    (decodeImage false envSvg fileSvg.blob bridgeOk).1 =
      wrapDecode (envSvg.builtinDecode fileSvg.blob) ∧
    Legacy.decodeImage false envSvg fileSvg.blob bridgeOk = wrapDecode (envSvg.rasterize
      { content := envSvg.serializeSvg (normalizeSvg (envSvg.parseSvg
          (envSvg.blobToText fileSvg.blob)))
        mime := "image/svg+xml" }) :=
  ⟨rfl, rfl,
   (svg_normalization_only_legacy envSvg fileSvg.blob bridgeOk rfl rfl).1,
   (svg_normalization_only_legacy envSvg fileSvg.blob bridgeOk rfl rfl).2.2.1⟩

/-- C8: for every processor configuration (universally quantified, so
no configuration can reorder the steps), resize and quantize apply
independently according to their `enabled` flags, and when both are
enabled the resize capability is invoked strictly before the quantize
capability, which receives exactly the resized buffer; when resize
fails, quantize is never invoked. -/
theorem process_resize_before_quantize (env : Env) (pre dec : ImageData)
    (proc : ProcessorState) (w : WorkerBridge) :
    (proc.resize.enabled = false → proc.quantize.enabled = false →
      processImage false env { preprocessed := pre, decoded := dec } proc w =
        (Except.ok pre, [])) ∧
    (proc.resize.enabled = true → proc.quantize.enabled = false →
      processImage false env { preprocessed := pre, decoded := dec } proc w =
        (env.resizeClient pre dec proc.resize w, [Call.resize pre dec proc.resize])) ∧
    (proc.resize.enabled = false → proc.quantize.enabled = true →
      processImage false env { preprocessed := pre, decoded := dec } proc w =
        (w.quantize pre proc.quantize, [Call.quantize pre proc.quantize])) ∧
    (∀ mid, proc.resize.enabled = true → proc.quantize.enabled = true →
      env.resizeClient pre dec proc.resize w = Except.ok mid →
      processImage false env { preprocessed := pre, decoded := dec } proc w =
        (w.quantize mid proc.quantize,
         [Call.resize pre dec proc.resize, Call.quantize mid proc.quantize])) ∧
    (∀ e, proc.resize.enabled = true → proc.quantize.enabled = true →
      env.resizeClient pre dec proc.resize w = Except.error e →
      processImage false env { preprocessed := pre, decoded := dec } proc w =
        (Except.error e, [Call.resize pre dec proc.resize])) := by
  refine ⟨?_, ?_, ?_, ?_, ?_⟩
  · intro hr hq
    simp [processImage, hr, hq]
  · intro hr hq
    cases hres : env.resizeClient pre dec proc.resize w with
    | ok mid => simp [processImage, hr, hq, hres]
    | error e => simp [processImage, hr, hq, hres]
  · intro hr hq
    simp [processImage, hr, hq]
  · intro mid hr hq hres
    simp [processImage, hr, hq, hres]
  · intro e hr hq hres
    simp [processImage, hr, hq, hres]

/-- Witness for C8: a concrete both-enabled configuration, where the
trace shows resize strictly before quantize and quantize consuming the
resized buffer. -/
theorem process_resize_before_quantize_witness :
    envA.resizeClient { width := 1, height := 1, data := "px" }
        { width := 1, height := 1, data := "orig" } { enabled := true } bridgeOk =
      Except.ok { width := 1, height := 1, data := "rsz:px" } ∧
    processImage false envA
        { preprocessed := { width := 1, height := 1, data := "px" }
          decoded := { width := 1, height := 1, data := "orig" } }
        { resize := { enabled := true }, quantize := { enabled := true } } bridgeOk =
      (bridgeOk.quantize { width := 1, height := 1, data := "rsz:px" } { enabled := true },
       [Call.resize { width := 1, height := 1, data := "px" }
          { width := 1, height := 1, data := "orig" } { enabled := true },
        Call.quantize { width := 1, height := 1, data := "rsz:px" } { enabled := true }]) :=
  ⟨rfl,
   (process_resize_before_quantize envA { width := 1, height := 1, data := "px" }
      { width := 1, height := 1, data := "orig" }
      { resize := { enabled := true }, quantize := { enabled := true } } bridgeOk).2.2.2.1
     { width := 1, height := 1, data := "rsz:px" } rfl rfl rfl⟩

/-- C9: for every decoded image and every preprocessor configuration
with rotation angle 0, the Preprocess stage (with a live cancellation
token) returns its input unchanged and invokes no capability: its
result is `Except.ok data` and its capability trace is empty. -/
theorem preprocess_identity_rotate_zero (data : ImageData) (pre : PreprocessorState)
    (w : WorkerBridge) (h : pre.rotate.rotate = 0) :
    preprocessImage false data pre w = (Except.ok data, []) := by
  simp [preprocessImage, h]

/-- Witness for C9: the default preprocessor state (rotation 0) on a
concrete image. -/
theorem preprocess_identity_rotate_zero_witness :
    defaultPreprocessorState.rotate.rotate = 0 ∧
    preprocessImage false { width := 4, height := 4, data := "img" }
        defaultPreprocessorState bridgeOk =
      (Except.ok { width := 4, height := 4, data := "img" }, []) :=
  ⟨rfl,
   preprocess_identity_rotate_zero { width := 4, height := 4, data := "img" }
     defaultPreprocessorState bridgeOk rfl⟩

/-! Facts about the filename regex replacement, for C10. -/

theorem replaceLastExtL_no_dot (cs ext : List Char) (h : ('.' : Char) ∉ cs) :
    replaceLastExtL cs ext = cs := by
  induction cs with
  | nil => rfl
  | cons c rest ih =>
    have hc : ¬ (c = '.' ∧ ('.' : Char) ∉ rest) := by
      rintro ⟨rfl, -⟩
      exact h (List.mem_cons_self _ _)
    rw [replaceLastExtL, if_neg hc, ih (fun hm => h (List.mem_cons_of_mem _ hm))]

theorem replaceLastExtL_append (stem tail ext : List Char) (h : ('.' : Char) ∉ tail) :
    replaceLastExtL (stem ++ '.' :: tail) ext = stem ++ '.' :: ext := by
  induction stem with
  | nil =>
    rw [List.nil_append, replaceLastExtL, if_pos ⟨rfl, h⟩, List.nil_append]
  | cons c stem ih =>
    have hc : ¬ (c = '.' ∧ ('.' : Char) ∉ (stem ++ '.' :: tail)) := by
      rintro ⟨-, hn⟩
      exact hn (by simp)
    rw [List.cons_append, replaceLastExtL, if_neg hc, ih, List.cons_append]

theorem exists_last_dot (cs : List Char) (h : ('.' : Char) ∈ cs) :
    ∃ stem tail, cs = stem ++ '.' :: tail ∧ ('.' : Char) ∉ tail := by
  induction cs with
  | nil => cases h
  | cons c rest ih =>
    by_cases hr : ('.' : Char) ∈ rest
    · obtain ⟨stem, tail, h1, h2⟩ := ih hr
      exact ⟨c :: stem, tail, by rw [h1]; rfl, h2⟩
    · have hc : c = '.' := by
        rcases List.mem_cons.mp h with h1 | h1
        · exact h1.symm
        · exact absurd h1 hr
      exact ⟨[], rest, by rw [hc, List.nil_append], hr⟩

/-- C10: the output filename derivation of the Encode stage.  When the
encoder succeeds, `encodeImage` returns the output file whose name is
the regex replacement of the source name; a source name containing at
least one dot decomposes as `stem ++ "." ++ tail` with a dot-free
`tail` (its last extension), and the output name is exactly
`stem ++ "." ++ ext`, the last extension replaced by the codec's
canonical one; a source name with no dot is kept entirely unchanged —
no extension is appended. -/
theorem encode_output_filename (env : Env) (img : ImageData) (st : EncoderState)
    (nm : String) (w : WorkerBridge) (bytes : String)
    (henc : (env.encoderMap st.type).encode w img st.options = Except.ok bytes) :
    ((encodeImage false env img st nm w).1 = Except.ok
      { blob := { content := bytes, mime := (env.encoderMap st.type).meta.mimeType }
        name := replaceLastExt nm (env.encoderMap st.type).meta.extension }) ∧
    (('.' : Char) ∈ nm.data → ∃ stem tail,
      nm.data = stem ++ '.' :: tail ∧ ('.' : Char) ∉ tail ∧
      (replaceLastExt nm (env.encoderMap st.type).meta.extension).data =
        stem ++ '.' :: ((env.encoderMap st.type).meta.extension).data) ∧
    (('.' : Char) ∉ nm.data →
      replaceLastExt nm (env.encoderMap st.type).meta.extension = nm) := by
  refine ⟨by simp [encodeImage, henc], ?_, ?_⟩
  · intro h
    obtain ⟨stem, tail, h1, h2⟩ := exists_last_dot nm.data h
    refine ⟨stem, tail, h1, h2, ?_⟩
    show replaceLastExtL nm.data _ = _
    rw [h1, replaceLastExtL_append _ _ _ h2]
  · intro h
    show String.mk (replaceLastExtL nm.data _) = nm
    rw [replaceLastExtL_no_dot _ _ h]

/-- Witness for C10: concrete names with and without a dot under a
concrete encoder (extension `jpg`). -/
theorem encode_output_filename_witness :
    (envA.encoderMap EncoderType.mozJPEG).encode bridgeOk
        { width := 1, height := 1, data := "px" } { quality := 75 } = Except.ok "ENC:px" ∧
    (('.' : Char) ∈ "photo.png".data → ∃ stem tail,
      "photo.png".data = stem ++ '.' :: tail ∧ ('.' : Char) ∉ tail ∧
      (replaceLastExt "photo.png" (envA.encoderMap EncoderType.mozJPEG).meta.extension).data =
        stem ++ '.' :: ((envA.encoderMap EncoderType.mozJPEG).meta.extension).data) ∧
    (('.' : Char) ∉ "photo".data →
      replaceLastExt "photo" (envA.encoderMap EncoderType.mozJPEG).meta.extension = "photo") ∧
    replaceLastExt "photo.png" "jpg" = "photo.jpg" ∧
    replaceLastExt "photo" "jpg" = "photo" :=
  ⟨rfl,
   (encode_output_filename envA { width := 1, height := 1, data := "px" }
      { type := EncoderType.mozJPEG, options := { quality := 75 } } "photo.png" bridgeOk
      "ENC:px" rfl).2.1,
   (encode_output_filename envA { width := 1, height := 1, data := "px" }
      { type := EncoderType.mozJPEG, options := { quality := 75 } } "photo" bridgeOk
      "ENC:px" rfl).2.2,
   rfl, rfl⟩

end Squoosh
